import Mathlib

/-!
Formalisation of the F4V bootstrap-info binary decoder of `f4m.py`.

The decoder consists of a sequential byte cursor (`RawDataIterator`) and a
family of box decoders (`F4VBox`, `F4VBootstrapInfoBox`, `F4VSegmentRunTableBox`,
`F4VFragmentRunTableBox`).  The Python code signals failure by letting an
exception escape (`struct.error` from `struct.unpack` on a short slice,
`IndexError` from indexing past the end of a string); both are failures caused
by reading out of bounds, and the embedding models them as an explicit
`DecodeError.outOfBounds` value threaded through a state-passing monad.
Crucially, the embedding preserves the *order* of the Python statements: the
cursor's `index` is updated *before* the fallible `struct.unpack` call, so a
failed read leaves the index advanced, exactly as the Python object would be
observed after the exception propagates.

Python slice (`data[start:end]`) and index (`data[i]`) semantics, including
clamping and negative indices, are modelled by `pySlice` and `pyIndex`.
-/

/-- Errors raised while decoding.  The Python code only ever fails by reading
out of bounds (a short slice handed to `struct.unpack`, or a string index past
the end of the buffer); both faults are modelled by `outOfBounds`. -/
inductive DecodeError where
  | outOfBounds
deriving DecidableEq

deriving instance DecidableEq for Except

/-- The cursor of `f4m.py`: the byte buffer (`self.data`, one `Nat` per byte)
and the mutable read offset (`self.index`).  The index is an `Int` because
`rewind` subtracts with no lower bound, so it can become negative.  (The Python
constructor also stores a constant, never-read endianness marker `self.endian`;
it carries no information and is omitted.) -/
structure RawDataIterator where
  data : List Nat
  index : Int
deriving DecidableEq

/-- Clamp of one bound of a Python slice `s[a:b]` for a sequence of length
`n`: a negative bound counts from the end (and is clamped below at 0 by
`Int.toNat`), a nonnegative bound is clamped above at `n`. -/
def sliceBound (n : Nat) (i : Int) : Nat :=
  if i < 0 then ((n : Int) + i).toNat else min i.toNat n

/-- Python slice `l[s:e]`: the elements whose (clamped) positions lie in
`[sliceBound s, sliceBound e)`.  Never fails; out-of-range slices are
silently shortened, exactly as in Python. -/
def pySlice (l : List Nat) (s e : Int) : List Nat :=
  List.drop (sliceBound l.length s) (List.take (sliceBound l.length e) l)

/-- Python indexing `l[i]`: a negative index counts from the end; an index
out of range yields `none` (Python raises `IndexError`). -/
def pyIndex (l : List Nat) (i : Int) : Option Nat :=
  let j : Int := if i < 0 then (l.length : Int) + i else i
  if 0 ≤ j then l.get? j.toNat else none

/-- State-passing decode monad: a computation takes the cursor and returns a
result (or a decode error) together with the cursor as left behind.  The
cursor is returned even on failure because the Python object remains
observable, mutations included, after the exception propagates. -/
def DecodeM (α : Type) : Type :=
  RawDataIterator → Except DecodeError α × RawDataIterator

instance : Monad DecodeM where
  pure a := fun s => (Except.ok a, s)
  bind m f := fun s =>
    match m s with
    | (Except.ok a, s') => f a s'
    | (Except.error e, s') => (Except.error e, s')

/-- Unfolding lemma for `bind` on `DecodeM`: run the first action, and on an
error short-circuit with the state at the moment of failure. -/
theorem DecodeM.bind_apply {α β : Type} (m : DecodeM α) (f : α → DecodeM β)
    (s : RawDataIterator) :
    (m >>= f) s =
      match m s with
      | (Except.ok a, s') => f a s'
      | (Except.error e, s') => (Except.error e, s') := rfl

/-- Unfolding lemma for `pure` on `DecodeM`. -/
theorem DecodeM.pure_apply {α : Type} (a : α) (s : RawDataIterator) :
    (pure a : DecodeM α) s = (Except.ok a, s) := rfl

/-- Big-endian value of a byte sequence, as computed by `struct.unpack` with
the patterns `>B`, `>H`, `>I`, `>Q` on exactly the right number of bytes. -/
def beBytesToNat (l : List Nat) : Nat :=
  List.foldl (fun acc b => acc * 256 + b) 0 l

/-- `RawDataIterator.read` (`f4m.py` lines 69-75): slice out `size` bytes and
advance the index by `size`.  It never fails: a slice reaching past the end of
the buffer is silently truncated by Python slicing. -/
def RawDataIterator.read (size : Int) : DecodeM (List Nat) := fun it =>
  (Except.ok (pySlice it.data it.index (it.index + size)),
   { it with index := it.index + size })

/-- `RawDataIterator._read` (`f4m.py` lines 80-86): set `index = index + size`
first, then `struct.unpack` the slice `data[start:end]`.  `struct.unpack`
raises (`struct.error`) exactly when the slice does not have `size` bytes;
either way the index has already been advanced. -/
def RawDataIterator.readFixed (size : Nat) : DecodeM Nat := fun it =>
  let bytes := pySlice it.data it.index (it.index + (size : Int))
  let it' : RawDataIterator := { it with index := it.index + (size : Int) }
  if bytes.length = size then (Except.ok (beBytesToNat bytes), it')
  else (Except.error DecodeError.outOfBounds, it')

/-- `readUI8` reads one byte, big-endian pattern `>B`. -/
def RawDataIterator.readUI8 : DecodeM Nat := RawDataIterator.readFixed 1

/-- `readUI16` reads two bytes, big-endian pattern `>H`. -/
def RawDataIterator.readUI16 : DecodeM Nat := RawDataIterator.readFixed 2

/-- `readUI32` reads four bytes, big-endian pattern `>I`. -/
def RawDataIterator.readUI32 : DecodeM Nat := RawDataIterator.readFixed 4

/-- `readUI64` reads eight bytes, big-endian pattern `>Q`. -/
def RawDataIterator.readUI64 : DecodeM Nat := RawDataIterator.readFixed 8

/-- `resetTo(index)`: set the index to the given value. -/
def RawDataIterator.resetTo (i : Int) : DecodeM Unit := fun it =>
  (Except.ok (), { it with index := i })

/-- `rewind(offset)`: subtract `offset` from the index, with no bounds check
(the index can become negative). -/
def RawDataIterator.rewind (offset : Int) : DecodeM Unit := fun it =>
  (Except.ok (), { it with index := it.index - offset })

/-- `remaining()`: `read(len(data) - index)`. -/
def RawDataIterator.remaining : DecodeM (List Nat) := fun it =>
  RawDataIterator.read ((it.data.length : Int) - it.index) it

/-- Loop body of `readNullString` (`f4m.py` lines 54-67): read the byte at
`index` (an out-of-range access raises `IndexError` with the index not yet
incremented), increment the index, stop after a `0x00`, otherwise append the
byte and continue.  The Python loop is unbounded; here it carries fuel, which
`readNullString` instantiates with a bound that provably exceeds the number of
iterations any run can make (each iteration moves `i` up by one, and the loop
must stop — with a terminator or with an `IndexError` — by the time `i`
reaches `data.length`, so `data.length + |i₀| + 1` iterations are never
reached). -/
def nullScan (data : List Nat) : Nat → Int → List Nat →
    Except DecodeError (List Nat) × Int
  | 0, i, _ => (Except.error DecodeError.outOfBounds, i)
  | fuel + 1, i, acc =>
    match pyIndex data i with
    | none => (Except.error DecodeError.outOfBounds, i)
    | some c =>
      if c = 0 then (Except.ok acc, i + 1)
      else nullScan data fuel (i + 1) (acc ++ [c])

/-- `readNullString` (`f4m.py` lines 54-67): accumulate bytes until a `0x00`
terminator (consumed but not returned); running past the end of the buffer is
an out-of-bounds failure with the index left where the failing access
happened. -/
def RawDataIterator.readNullString : DecodeM (List Nat) := fun it =>
  match nullScan it.data (it.data.length + it.index.natAbs + 1) it.index [] with
  | (r, i') => (r, { it with index := i' })

/-- The generic box header (`F4VBox.__init__`, `f4m.py` lines 93-105): the
declared `size` (`readUI32`) and the four-byte `type` tag (`read(4)`).  The
Python constructor wraps raw bytes in a fresh `RawDataIterator` but reuses an
iterator passed in, so nested boxes consume the caller's cursor; in the
embedding this is the state of `DecodeM`, and decoding from raw bytes is
running the computation on a fresh cursor at index 0. -/
structure F4VBox where
  size : Nat
  type : List Nat
deriving DecidableEq

/-- Decode of the generic box header: `size` then `type`, in that order.
There is no extended-size handling (the source carries only a `FIXME` comment
for it): the `size` field is kept verbatim whatever its value. -/
def F4VBox.decode : DecodeM F4VBox := do
  let size ← RawDataIterator.readUI32
  let ty ← RawDataIterator.read 4
  pure { size := size, type := ty }

/-- One record of `segmentRunEntryTable` (`f4m.py` lines 172-182), a Python
dict with keys `first_segment` and `fragments_per_segment`. -/
structure SegmentRunEntry where
  first_segment : Nat
  fragments_per_segment : Nat
deriving DecidableEq

/-- One loop iteration of the segment-run entry table: two `readUI32` in
order, packed into a record. -/
def segmentRunEntryStep : DecodeM SegmentRunEntry := do
  let first_segment ← RawDataIterator.readUI32
  let fragments_per_segment ← RawDataIterator.readUI32
  pure { first_segment := first_segment,
         fragments_per_segment := fragments_per_segment }

/-- A Python one-element tuple `(x,)`. -/
structure PyTuple1 (α : Type) where
  fst : α
deriving DecidableEq

/-- One record of `fragmentRunEntryTable` (`f4m.py` lines 200-208).  The
`discontinuity_indicator` value is a *one-element tuple* — the Python source
line ends in a trailing comma — holding either the extra byte (when
`fragment_duration == 0`) or `None`. -/
structure FragmentRunEntry where
  first_fragment : Nat
  first_fragment_timestamp : Nat
  fragment_duration : Nat
  discontinuity_indicator : PyTuple1 (Option Nat)
deriving DecidableEq

/-- One loop iteration of the fragment-run entry table (`f4m.py` lines
200-208): `readUI32`, `readUI64`, `readUI32`, and then `readUI8` *only when*
the just-decoded `fragment_duration` is zero (the conditional expression calls
`readUI8` in the zero branch only), the result wrapped in a one-element
tuple. -/
def fragmentRunEntryStep : DecodeM FragmentRunEntry := do
  let first_fragment ← RawDataIterator.readUI32
  let first_fragment_timestamp ← RawDataIterator.readUI64
  let fragment_duration ← RawDataIterator.readUI32
  let disc ←
    (if fragment_duration = 0 then
      RawDataIterator.readUI8 >>= fun b => pure (PyTuple1.mk (some b))
    else
      pure (PyTuple1.mk (none : Option Nat)))
  pure { first_fragment := first_fragment,
         first_fragment_timestamp := first_fragment_timestamp,
         fragment_duration := fragment_duration,
         discontinuity_indicator := disc }

/-- A `for x in range(count)` loop that runs a decode step `count` times and
collects the results in order, as the table loops of `f4m.py` do by appending
to a list; a failing step aborts the whole loop (the Python exception
propagates). -/
def decodeTable {α : Type} (step : DecodeM α) : Nat → DecodeM (List α)
  | 0 => pure []
  | n + 1 => do
    let x ← step
    let xs ← decodeTable step n
    pure (x :: xs)

/-- Decoded form of `F4VSegmentRunTableBox` (`f4m.py` lines 155-182). -/
structure F4VSegmentRunTableBox extends F4VBox where
  version : Nat
  flags : List Nat
  qualityEntryCount : Nat
  qualitySegmentURLModifiers : List (List Nat)
  segmentRunEntryCount : Nat
  segmentRunEntryTable : List SegmentRunEntry
deriving DecidableEq

/-- Decode of `F4VSegmentRunTableBox.__init__`: header, `version`, `flags`
(3 raw bytes), the `u8`-counted quality-modifier string table, then the
`u32`-counted segment-run entry table, all on one cursor. -/
def F4VSegmentRunTableBox.decode : DecodeM F4VSegmentRunTableBox := do
  let header ← F4VBox.decode
  let version ← RawDataIterator.readUI8
  let flags ← RawDataIterator.read 3
  let qualityEntryCount ← RawDataIterator.readUI8
  let qualitySegmentURLModifiers ←
    decodeTable RawDataIterator.readNullString qualityEntryCount
  let segmentRunEntryCount ← RawDataIterator.readUI32
  let segmentRunEntryTable ← decodeTable segmentRunEntryStep segmentRunEntryCount
  pure { toF4VBox := header,
         version := version,
         flags := flags,
         qualityEntryCount := qualityEntryCount,
         qualitySegmentURLModifiers := qualitySegmentURLModifiers,
         segmentRunEntryCount := segmentRunEntryCount,
         segmentRunEntryTable := segmentRunEntryTable }

/-- Decoded form of `F4VFragmentRunTableBox` (`f4m.py` lines 184-208). -/
structure F4VFragmentRunTableBox extends F4VBox where
  version : Nat
  flags : List Nat
  timeScale : Nat
  qualityEntryCount : Nat
  qualitySegmentURLModifiers : List (List Nat)
  fragmentRunEntryCount : Nat
  fragmentRunEntryTable : List FragmentRunEntry
deriving DecidableEq

/-- Decode of `F4VFragmentRunTableBox.__init__`: header, `version`, `flags`,
`timeScale`, the `u8`-counted quality-modifier string table, then the
`u32`-counted fragment-run entry table, all on one cursor. -/
def F4VFragmentRunTableBox.decode : DecodeM F4VFragmentRunTableBox := do
  let header ← F4VBox.decode
  let version ← RawDataIterator.readUI8
  let flags ← RawDataIterator.read 3
  let timeScale ← RawDataIterator.readUI32
  let qualityEntryCount ← RawDataIterator.readUI8
  let qualitySegmentURLModifiers ←
    decodeTable RawDataIterator.readNullString qualityEntryCount
  let fragmentRunEntryCount ← RawDataIterator.readUI32
  let fragmentRunEntryTable ← decodeTable fragmentRunEntryStep fragmentRunEntryCount
  pure { toF4VBox := header,
         version := version,
         flags := flags,
         timeScale := timeScale,
         qualityEntryCount := qualityEntryCount,
         qualitySegmentURLModifiers := qualitySegmentURLModifiers,
         fragmentRunEntryCount := fragmentRunEntryCount,
         fragmentRunEntryTable := fragmentRunEntryTable }

/-- Decoded form of `F4VBootstrapInfoBox` (`f4m.py` lines 107-153).  Field
names follow the source, including its `boostrapInfoVersion` spelling and the
`boh` name for the reserved profile/live/update byte. -/
structure F4VBootstrapInfoBox extends F4VBox where
  version : Nat
  flags : List Nat
  boostrapInfoVersion : Nat
  boh : List Nat
  timescale : Nat
  currentMediaTime : Nat
  SmpteTimeCodeOffset : Nat
  movieIdentifier : List Nat
  serverEntryCount : Nat
  serverEntryTable : List (List Nat)
  qualityEntryCount : Nat
  qualityEntryTable : List (List Nat)
  drmData : List Nat
  metadata : List Nat
  segmentRunTableCount : Nat
  segmentRunTableEntries : List F4VSegmentRunTableBox
  fragmentRunTableCount : Nat
  fragmentRunTableEntries : List F4VFragmentRunTableBox
deriving DecidableEq

/-- Decode of `F4VBootstrapInfoBox.__init__` (`f4m.py` lines 107-153), in the
source's statement order; the nested sub-box tables run
`F4VSegmentRunTableBox`/`F4VFragmentRunTableBox` decoding on the same cursor
(the Python code passes `self.raw_data`, which the sub-box constructor reuses
unchanged). -/
def F4VBootstrapInfoBox.decode : DecodeM F4VBootstrapInfoBox := do
  let header ← F4VBox.decode
  let version ← RawDataIterator.readUI8
  let flags ← RawDataIterator.read 3
  let boostrapInfoVersion ← RawDataIterator.readUI32
  let boh ← RawDataIterator.read 1
  let timescale ← RawDataIterator.readUI32
  let currentMediaTime ← RawDataIterator.readUI64
  let SmpteTimeCodeOffset ← RawDataIterator.readUI64
  let movieIdentifier ← RawDataIterator.readNullString
  let serverEntryCount ← RawDataIterator.readUI8
  let serverEntryTable ←
    decodeTable RawDataIterator.readNullString serverEntryCount
  let qualityEntryCount ← RawDataIterator.readUI8
  let qualityEntryTable ←
    decodeTable RawDataIterator.readNullString qualityEntryCount
  let drmData ← RawDataIterator.readNullString
  let metadata ← RawDataIterator.readNullString
  let segmentRunTableCount ← RawDataIterator.readUI8
  let segmentRunTableEntries ←
    decodeTable F4VSegmentRunTableBox.decode segmentRunTableCount
  let fragmentRunTableCount ← RawDataIterator.readUI8
  let fragmentRunTableEntries ←
    decodeTable F4VFragmentRunTableBox.decode fragmentRunTableCount
  pure { toF4VBox := header,
         version := version,
         flags := flags,
         boostrapInfoVersion := boostrapInfoVersion,
         boh := boh,
         timescale := timescale,
         currentMediaTime := currentMediaTime,
         SmpteTimeCodeOffset := SmpteTimeCodeOffset,
         movieIdentifier := movieIdentifier,
         serverEntryCount := serverEntryCount,
         serverEntryTable := serverEntryTable,
         qualityEntryCount := qualityEntryCount,
         qualityEntryTable := qualityEntryTable,
         drmData := drmData,
         metadata := metadata,
         segmentRunTableCount := segmentRunTableCount,
         segmentRunTableEntries := segmentRunTableEntries,
         fragmentRunTableCount := fragmentRunTableCount,
         fragmentRunTableEntries := fragmentRunTableEntries }

/-- Decoding a bootstrap-info box from raw bytes: run the decode on a fresh
cursor at index 0 (the Python constructor wraps a plain byte string in a new
`RawDataIterator`). -/
def F4VBootstrapInfoBox.ofBytes (data : List Nat) :
    Except DecodeError F4VBootstrapInfoBox × RawDataIterator :=
  F4VBootstrapInfoBox.decode { data := data, index := 0 }

/-- Big-endian encoder: the value `v` written on `width` bytes, most
significant first.  This is the reference writer of the spec's round-trip
property (the repository itself is decode-only). -/
def beEncode : Nat → Nat → List Nat
  | 0, _ => []
  | width + 1, v => beEncode width (v / 256) ++ [v % 256]

/-- Well-formedness of a cursor: the index lies within the buffer, `0 ≤
index ≤ length`. -/
def RawDataIterator.Wf (it : RawDataIterator) : Prop :=
  0 ≤ it.index ∧ it.index ≤ (it.data.length : Int)

/-- Inversion of a successful `bind`: the first action succeeded and the
continuation ran from its final state. -/
theorem DecodeM.bind_ok {α β : Type} {m : DecodeM α} {f : α → DecodeM β}
    {s s' : RawDataIterator} {b : β}
    (h : (m >>= f) s = (Except.ok b, s')) :
    ∃ a s1, m s = (Except.ok a, s1) ∧ f a s1 = (Except.ok b, s') := by
  rw [DecodeM.bind_apply] at h
  rcases hm : m s with ⟨r, s1⟩
  rw [hm] at h
  cases r with
  | ok a => exact ⟨a, s1, rfl, h⟩
  | error e => simp at h

/-- Inversion of a successful `pure`. -/
theorem DecodeM.pure_ok {α : Type} {a b : α} {s s' : RawDataIterator}
    (h : (pure a : DecodeM α) s = (Except.ok b, s')) : a = b ∧ s = s' := by
  rw [DecodeM.pure_apply] at h
  have h1 := congrArg Prod.fst h
  have h2 := congrArg Prod.snd h
  simp only at h1 h2
  exact ⟨by injection h1, h2⟩

/-- Length of a Python slice `[i : i+n]` taken from a nonnegative start. -/
theorem pySlice_length_at (l : List Nat) (i : Int) (n : Nat) (h : 0 ≤ i) :
    (pySlice l i (i + n)).length
      = min (i.toNat + n) l.length - min i.toNat l.length := by
  have h1 : ¬ i < 0 := by omega
  have h2 : ¬ i + (n : Int) < 0 := by omega
  simp only [pySlice, sliceBound, if_neg h1, if_neg h2,
    List.length_drop, List.length_take]
  omega

/-- The slice of the whole buffer is the buffer. -/
theorem pySlice_all (l : List Nat) : pySlice l 0 (l.length : Int) = l := by
  have h1 : ¬ (0 : Int) < 0 := by omega
  have h2 : ¬ (l.length : Int) < 0 := by omega
  simp [pySlice, sliceBound, if_neg h1, if_neg h2]

/-- The state left behind by `_read` is always the input cursor advanced by
`size`, whether the unpack succeeded or failed. -/
theorem readFixed_snd (n : Nat) (it : RawDataIterator) :
    (RawDataIterator.readFixed n it).2 = { it with index := it.index + n } := by
  unfold RawDataIterator.readFixed
  dsimp only
  split <;> rfl

/-- A fixed-width read succeeds exactly when the slice has the full `size`
bytes, and then returns their big-endian value. -/
theorem readFixed_fst_ok_iff (n : Nat) (it : RawDataIterator) (v : Nat) :
    (RawDataIterator.readFixed n it).1 = Except.ok v ↔
      (pySlice it.data it.index (it.index + n)).length = n ∧
        v = beBytesToNat (pySlice it.data it.index (it.index + n)) := by
  unfold RawDataIterator.readFixed
  dsimp only
  split
  case isTrue h => simp [h, eq_comm]
  case isFalse h => simp [h]

/-- A successful fixed-width read of a positive width from a nonnegative
index means the buffer really had the bytes: `index + n ≤ length`. -/
theorem readFixed_ok_bounds {n : Nat} {it : RawDataIterator} {v : Nat}
    (h0 : 0 ≤ it.index) (hn : 0 < n)
    (h : (RawDataIterator.readFixed n it).1 = Except.ok v) :
    it.index + n ≤ (it.data.length : Int) := by
  have hl := ((readFixed_fst_ok_iff n it v).mp h).1
  rw [pySlice_length_at _ _ _ h0] at hl
  omega

/-- When the requested bytes are available, `_read` succeeds with their
big-endian value and advances the index by `size`. -/
theorem readFixed_ok_of_fits (n : Nat) (it : RawDataIterator)
    (h0 : 0 ≤ it.index) (h1 : it.index + n ≤ (it.data.length : Int)) :
    RawDataIterator.readFixed n it =
      (Except.ok (beBytesToNat (pySlice it.data it.index (it.index + n))),
       { it with index := it.index + n }) := by
  have hl : (pySlice it.data it.index (it.index + n)).length = n := by
    rw [pySlice_length_at _ _ _ h0]; omega
  unfold RawDataIterator.readFixed
  dsimp only
  rw [if_pos hl]

/-- When fewer than `n` bytes remain (and `n` is positive), `_read` fails. -/
theorem readFixed_error_of_short (n : Nat) (it : RawDataIterator)
    (h0 : 0 ≤ it.index) (hn : 0 < n)
    (h1 : (it.data.length : Int) < it.index + n) :
    (RawDataIterator.readFixed n it).1 = Except.error DecodeError.outOfBounds := by
  have hl : (pySlice it.data it.index (it.index + n)).length ≠ n := by
    rw [pySlice_length_at _ _ _ h0]; omega
  unfold RawDataIterator.readFixed
  dsimp only
  rw [if_neg hl]

/-- `read` in one equation: it never fails, returns the (possibly silently
truncated) slice, and advances the index by the full requested `size`. -/
theorem read_eq (size : Int) (it : RawDataIterator) :
    RawDataIterator.read size it =
      (Except.ok (pySlice it.data it.index (it.index + size)),
       { it with index := it.index + size }) := rfl

/-- From a nonnegative position, Python indexing is plain list lookup. -/
theorem pyIndex_nonneg (l : List Nat) (i : Int) (h : 0 ≤ i) :
    pyIndex l i = l.get? i.toNat := by
  simp only [pyIndex]
  rw [if_neg (by omega : ¬ i < 0), if_pos h]

/-- A successful scan returns the accumulator extended by the freshly read
bytes and leaves the position one past the terminator, whatever the starting
position was. -/
theorem nullScan_ok (data : List Nat) :
    ∀ (fuel : Nat) (i : Int) (acc s : List Nat) (i' : Int),
      nullScan data fuel i acc = (Except.ok s, i') →
      ∃ t, s = acc ++ t ∧ i' = i + t.length + 1 := by
  intro fuel
  induction fuel with
  | zero =>
    intro i acc s i' h
    simp [nullScan] at h
  | succ fuel ih =>
    intro i acc s i' h
    rw [nullScan] at h
    rcases hp : pyIndex data i with _ | c
    · simp only [hp] at h
      simp at h
    · simp only [hp] at h
      by_cases hc : c = 0
      · rw [if_pos hc] at h
        have h1 := congrArg Prod.fst h
        have h2 := congrArg Prod.snd h
        simp only at h1 h2
        injection h1 with h1
        exact ⟨[], by simp [← h1], by simp [← h2]⟩
      · rw [if_neg hc] at h
        obtain ⟨t, ht, hi⟩ := ih _ _ _ _ h
        refine ⟨c :: t, by simp [ht], ?_⟩
        rw [hi]
        simp only [List.length_cons]
        push_cast
        ring

/-- Full behaviour of the scan from a position inside the buffer, given
enough fuel: if the suffix from the position holds a `0x00`, the scan
succeeds with the bytes before the first such terminator appended to the
accumulator and stops one past the terminator; otherwise it walks to the end
of the buffer and fails there. -/
theorem nullScan_spec (data : List Nat) :
    ∀ (fuel : Nat) (i : Int) (acc : List Nat),
      0 ≤ i → i ≤ (data.length : Int) → data.length - i.toNat < fuel →
      nullScan data fuel i acc =
        if 0 ∈ data.drop i.toNat then
          (Except.ok (acc ++ (data.drop i.toNat).takeWhile (fun b => b != 0)),
           i + ((data.drop i.toNat).takeWhile (fun b => b != 0)).length + 1)
        else (Except.error DecodeError.outOfBounds, (data.length : Int)) := by
  intro fuel
  induction fuel with
  | zero =>
    intro i acc h0 h1 hf
    omega
  | succ fuel ih =>
    intro i acc h0 h1 hf
    rw [nullScan]
    by_cases hend : i = (data.length : Int)
    · have hdrop : data.drop i.toNat = [] := by
        apply List.drop_eq_nil_of_le
        omega
      have hp : pyIndex data i = none := by
        rw [pyIndex_nonneg data i h0]
        exact List.get?_eq_none.mpr (by omega)
      simp only [hp, hdrop]
      simp [hend]
    · have hlt : i.toNat < data.length := by omega
      have hdrop : data.drop i.toNat
          = data.get ⟨i.toNat, hlt⟩ :: data.drop (i.toNat + 1) := by
        rw [List.drop_eq_getElem_cons hlt]
        rfl
      have hp : pyIndex data i = some (data.get ⟨i.toNat, hlt⟩) := by
        rw [pyIndex_nonneg data i h0]
        exact List.get?_eq_get hlt
      simp only [hp]
      by_cases hc : data.get ⟨i.toNat, hlt⟩ = 0
      · rw [if_pos hc, hdrop, hc]
        simp
      · rw [if_neg hc]
        have hnext : (i + 1).toNat = i.toNat + 1 := by omega
        have hih := ih (i + 1) (acc ++ [data.get ⟨i.toNat, hlt⟩])
          (by omega) (by omega) (by omega)
        rw [hih, hnext, hdrop]
        have hbne : (data.get ⟨i.toNat, hlt⟩ != 0) = true := by
          simpa using hc
        by_cases hm : 0 ∈ data.drop (i.toNat + 1)
        · have hmem : 0 ∈ data.get ⟨i.toNat, hlt⟩ :: data.drop (i.toNat + 1) :=
            List.mem_cons_of_mem _ hm
          rw [if_pos hm, if_pos hmem,
            @List.takeWhile_cons_of_pos Nat (fun b => b != 0)
              (data.get ⟨i.toNat, hlt⟩) (data.drop (i.toNat + 1)) hbne]
          simp only [List.append_assoc, List.singleton_append, List.length_cons]
          congr 1
          push_cast
          ring
        · have hm2 : 0 ∉ data.get ⟨i.toNat, hlt⟩ :: data.drop (i.toNat + 1) := by
            intro hmem
            rcases List.mem_cons.mp hmem with h' | h'
            · exact hc h'.symm
            · exact hm h'
          rw [if_neg hm, if_neg hm2]

/-- `readNullString` in one equation, from a cursor whose index is inside the
buffer: with a terminator in the unread suffix, it returns the bytes before
the first `0x00` and stops one past it; without one, it fails out of bounds
with the index pushed to the end of the buffer. -/
theorem readNullString_eq (it : RawDataIterator)
    (h0 : 0 ≤ it.index) (h1 : it.index ≤ (it.data.length : Int)) :
    RawDataIterator.readNullString it =
      if 0 ∈ it.data.drop it.index.toNat then
        (Except.ok ((it.data.drop it.index.toNat).takeWhile (fun b => b != 0)),
         { it with index := it.index
            + ((it.data.drop it.index.toNat).takeWhile (fun b => b != 0)).length
            + 1 })
      else
        (Except.error DecodeError.outOfBounds,
         { it with index := (it.data.length : Int) }) := by
  unfold RawDataIterator.readNullString
  rw [nullScan_spec it.data _ _ _ h0 h1 (by omega)]
  by_cases hm : 0 ∈ it.data.drop it.index.toNat
  · rw [if_pos hm, if_pos hm]
    simp
  · rw [if_neg hm, if_neg hm]

/-- The scan for a terminator stops strictly before the end of the list when
the list holds a `0x00`. -/
theorem length_takeWhile_lt_of_mem_zero (l : List Nat) (h : 0 ∈ l) :
    (l.takeWhile (fun b => b != 0)).length < l.length := by
  induction l with
  | nil => simp at h
  | cons c rest ih =>
    by_cases hc : c = 0
    · subst hc
      rw [List.takeWhile_cons_of_neg (by simp)]
      simp
    · rw [@List.takeWhile_cons_of_pos Nat (fun b => b != 0) c rest (by simpa using hc)]
      have h' : 0 ∈ rest := by
        rcases List.mem_cons.mp h with h'' | h''
        · exact absurd h''.symm hc
        · exact h''
      simpa using ih h'

/-- Inversion of a successful fixed-width read: the final state is the input
advanced by `n`, and (for positive `n` from a nonnegative index) the bytes
were really available. -/
theorem readFixed_ok_inv (n : Nat) (it : RawDataIterator) (v : Nat)
    (it' : RawDataIterator)
    (h : RawDataIterator.readFixed n it = (Except.ok v, it')) :
    it' = { it with index := it.index + n } ∧
      (0 ≤ it.index → 0 < n → it.index + n ≤ (it.data.length : Int)) := by
  have h2 := congrArg Prod.snd h
  rw [readFixed_snd] at h2
  simp only at h2
  refine ⟨h2.symm, fun hi hn => ?_⟩
  have h1 := congrArg Prod.fst h
  simp only at h1
  exact readFixed_ok_bounds hi hn h1

/-- A successful null-terminated-string read advances the index by at least
one byte and cannot leave the buffer. -/
theorem readNullString_ok_bounds (s : RawDataIterator) (a : List Nat)
    (s' : RawDataIterator)
    (h0 : 0 ≤ s.index) (h1 : s.index ≤ (s.data.length : Int))
    (h : RawDataIterator.readNullString s = (Except.ok a, s')) :
    s'.data = s.data ∧ s.index + 1 ≤ s'.index ∧ s'.index ≤ (s.data.length : Int) := by
  rw [readNullString_eq s h0 h1] at h
  by_cases hm : 0 ∈ s.data.drop s.index.toNat
  · rw [if_pos hm] at h
    have h2 := congrArg Prod.snd h
    simp only at h2
    have hlen := length_takeWhile_lt_of_mem_zero _ hm
    rw [List.length_drop] at hlen
    rw [← h2]
    dsimp only
    refine ⟨rfl, by omega, by omega⟩
  · rw [if_neg hm] at h
    simp at h

/-- A successful segment-run entry decode advances the index by exactly 8
bytes, all of which were inside the buffer. -/
theorem segmentRunEntryStep_bounds (s : RawDataIterator) (a : SegmentRunEntry)
    (s' : RawDataIterator)
    (h0 : 0 ≤ s.index) (h1 : s.index ≤ (s.data.length : Int))
    (h : segmentRunEntryStep s = (Except.ok a, s')) :
    s'.data = s.data ∧ s.index + 8 ≤ s'.index ∧ s'.index ≤ (s.data.length : Int) := by
  unfold segmentRunEntryStep at h
  obtain ⟨v1, s1, h1', h⟩ := DecodeM.bind_ok h
  obtain ⟨v2, s2, h2', h⟩ := DecodeM.bind_ok h
  obtain ⟨hv, hs2⟩ := DecodeM.pure_ok h
  unfold RawDataIterator.readUI32 at h1' h2'
  obtain ⟨he1, hb1⟩ := readFixed_ok_inv _ _ _ _ h1'
  obtain ⟨he2, hb2⟩ := readFixed_ok_inv _ _ _ _ h2'
  subst he1
  subst he2
  subst hs2
  have hc1 := hb1 h0 (by omega)
  have hc2 := hb2 (by dsimp only; omega) (by omega)
  dsimp only at hc2 ⊢
  refine ⟨rfl, by omega, by omega⟩

/-- A successful fragment-run entry decode advances the index by 16 bytes
(17 with the discontinuity byte), staying inside the buffer. -/
theorem fragmentRunEntryStep_bounds (s : RawDataIterator) (a : FragmentRunEntry)
    (s' : RawDataIterator)
    (h0 : 0 ≤ s.index) (h1 : s.index ≤ (s.data.length : Int))
    (h : fragmentRunEntryStep s = (Except.ok a, s')) :
    s'.data = s.data ∧ s.index + 16 ≤ s'.index ∧ s'.index ≤ (s.data.length : Int) := by
  unfold fragmentRunEntryStep at h
  obtain ⟨v1, s1, h1', h⟩ := DecodeM.bind_ok h
  obtain ⟨v2, s2, h2', h⟩ := DecodeM.bind_ok h
  obtain ⟨v3, s3, h3', h⟩ := DecodeM.bind_ok h
  obtain ⟨disc, s4, hif, h⟩ := DecodeM.bind_ok h
  obtain ⟨hv, hs4⟩ := DecodeM.pure_ok h
  unfold RawDataIterator.readUI32 at h1' h3'
  unfold RawDataIterator.readUI64 at h2'
  obtain ⟨he1, hb1⟩ := readFixed_ok_inv _ _ _ _ h1'
  obtain ⟨he2, hb2⟩ := readFixed_ok_inv _ _ _ _ h2'
  obtain ⟨he3, hb3⟩ := readFixed_ok_inv _ _ _ _ h3'
  subst he1
  subst he2
  subst he3
  subst hs4
  have hc3 := hb3 (by dsimp only; omega) (by omega)
  dsimp only at hc3
  by_cases hz : v3 = 0
  · rw [if_pos hz] at hif
    obtain ⟨b, s5, hb', h5⟩ := DecodeM.bind_ok hif
    obtain ⟨hbv, hs5⟩ := DecodeM.pure_ok h5
    unfold RawDataIterator.readUI8 at hb'
    obtain ⟨he4, hb4⟩ := readFixed_ok_inv _ _ _ _ hb'
    subst he4
    subst hs5
    have hc4 := hb4 (by dsimp only; omega) (by omega)
    dsimp only at hc4 ⊢
    refine ⟨rfl, by omega, by omega⟩
  · rw [if_neg hz] at hif
    obtain ⟨hdv, hs5⟩ := DecodeM.pure_ok hif
    subst hs5
    dsimp only
    refine ⟨rfl, by omega, by omega⟩

/-- Running a table loop zero times consumes nothing and returns the empty
list. -/
theorem decodeTable_zero {α : Type} (step : DecodeM α) (it : RawDataIterator) :
    decodeTable step 0 it = (Except.ok [], it) := rfl

/-- A table loop that succeeds returns exactly as many entries as it was
asked for — never a truncated list. -/
theorem decodeTable_ok_length {α : Type} (step : DecodeM α) :
    ∀ (n : Nat) (it : RawDataIterator) (l : List α) (it' : RawDataIterator),
      decodeTable step n it = (Except.ok l, it') → l.length = n := by
  intro n
  induction n with
  | zero =>
    intro it l it' h
    rw [decodeTable] at h
    obtain ⟨h1, h2⟩ := DecodeM.pure_ok h
    simp [← h1]
  | succ n ih =>
    intro it l it' h
    rw [decodeTable] at h
    obtain ⟨a, s1, h1, h⟩ := DecodeM.bind_ok h
    obtain ⟨xs, s2, h2, h⟩ := DecodeM.bind_ok h
    obtain ⟨h3, h4⟩ := DecodeM.pure_ok h
    have hlen := ih s1 xs s2 h2
    simp [← h3, hlen]

/-- The big-endian writer emits exactly `width` bytes. -/
theorem beEncode_length (w v : Nat) : (beEncode w v).length = w := by
  induction w generalizing v with
  | zero => rfl
  | succ w ih => simp [beEncode, ih]

/-- Appending one byte shifts the big-endian value up by one byte. -/
theorem beBytesToNat_append_one (l : List Nat) (b : Nat) :
    beBytesToNat (l ++ [b]) = beBytesToNat l * 256 + b := by
  unfold beBytesToNat
  rw [List.foldl_append]
  rfl

/-- Decoding the big-endian writer's output gives back the value, for any
value that fits in the width. -/
theorem beBytesToNat_beEncode (w : Nat) :
    ∀ v : Nat, v < 256 ^ w → beBytesToNat (beEncode w v) = v := by
  induction w with
  | zero =>
    intro v h
    have hv : v = 0 := by simpa using h
    subst hv
    rfl
  | succ w ih =>
    intro v h
    rw [beEncode, beBytesToNat_append_one, ih (v / 256) ?_]
    · omega
    · rw [pow_succ] at h
      exact (Nat.div_lt_iff_lt_mul (by norm_num)).mpr h

/-- A fixed-width read over exactly the writer's output returns the written
value and consumes the whole buffer. -/
theorem readFixed_beEncode (w v : Nat) (h : v < 256 ^ w) :
    RawDataIterator.readFixed w { data := beEncode w v, index := 0 }
      = (Except.ok v, { data := beEncode w v, index := (w : Int) }) := by
  have hlen : (beEncode w v).length = w := beEncode_length w v
  have hfits := readFixed_ok_of_fits w { data := beEncode w v, index := 0 }
    (by norm_num) (by dsimp only; rw [hlen]; omega)
  rw [hfits]
  dsimp only
  rw [zero_add]
  rw [show ((w : Nat) : Int) = (((beEncode w v).length : Nat) : Int) from by rw [hlen]]
  rw [pySlice_all, beBytesToNat_beEncode w v h, hlen]

/-- A table loop whose step always consumes at least `k` bytes on success
(staying inside the buffer) must fail when the remaining bytes are fewer
than `k` per requested entry: with only one error in the model, the failure
is the out-of-bounds decode error. -/
theorem decodeTable_error {α : Type} (step : DecodeM α) (k : Nat)
    (hstep : ∀ s a s', 0 ≤ s.index → s.index ≤ (s.data.length : Int) →
      step s = (Except.ok a, s') →
      s'.data = s.data ∧ s.index + k ≤ s'.index ∧ s'.index ≤ (s.data.length : Int)) :
    ∀ (n : Nat) (s : RawDataIterator), 0 ≤ s.index →
      s.index ≤ (s.data.length : Int) →
      (s.data.length : Int) < s.index + k * n →
      (decodeTable step n s).1 = Except.error DecodeError.outOfBounds := by
  intro n
  induction n with
  | zero =>
    intro s h0 h1 h2
    exfalso
    simp at h2
    omega
  | succ n ih =>
    intro s h0 h1 h2
    rw [decodeTable, DecodeM.bind_apply]
    rcases hs : step s with ⟨r, s1⟩
    cases r with
    | error e =>
      cases e
      rfl
    | ok a =>
      obtain ⟨hd, hadv, hle⟩ := hstep s a s1 h0 h1 hs
      have herr : (decodeTable step n s1).1 = Except.error DecodeError.outOfBounds := by
        apply ih s1 (by omega) (by rw [hd]; exact hle)
        rw [hd]
        have hexp : (k : Int) * ((n + 1 : Nat) : Int) = (k : Int) * ((n : Nat) : Int) + k := by
          push_cast
          ring
        omega
      dsimp only
      rw [DecodeM.bind_apply]
      rcases ht : decodeTable step n s1 with ⟨r2, s2⟩
      rw [ht] at herr
      simp only at herr
      subst herr
      rfl

/-- One explicit step of sequential decoding: if the step before produced an
error, propagate it together with the cursor state at the failure; otherwise
hand the decoded value and the cursor state it left behind to the
continuation. -/
def stepThen {α β : Type} (r : Except DecodeError α × RawDataIterator)
    (g : α → RawDataIterator → Except DecodeError β × RawDataIterator) :
    Except DecodeError β × RawDataIterator :=
  match r with
  | (Except.error e, s) => (Except.error e, s)
  | (Except.ok a, s) => g a s

/-- A monadic bind, applied to a state, is one explicit sequential step. -/
theorem bind_apply_stepThen {α β : Type} (m : DecodeM α) (f : α → DecodeM β)
    (s : RawDataIterator) :
    (m >>= f) s = stepThen (m s) (fun a s' => f a s') := by
  rw [DecodeM.bind_apply]
  rcases m s with ⟨r, s'⟩
  cases r with
  | error e => rfl
  | ok a => rfl

/-- Two sequential steps from the same previous result agree when their
continuations agree pointwise. -/
theorem stepThen_congr {α β : Type} (r : Except DecodeError α × RawDataIterator)
    (f g : α → RawDataIterator → Except DecodeError β × RawDataIterator)
    (h : ∀ a s, f a s = g a s) : stepThen r f = stepThen r g := by
  rcases r with ⟨r, s⟩
  cases r with
  | error e => rfl
  | ok a => exact h a s

/-- Transcription of the decode order the specification gives for the
bootstrap-info box, written as an explicit chain of cursor states: box
header; the scalars `version`, `flags`, `bootstrapInfoVersion`, the reserved
byte, `timescale`, `currentMediaTime`, `smpteTimeCodeOffset`; then
`movieIdentifier`; the `u8`-count-prefixed server entry strings; the
`u8`-count-prefixed quality entry strings; `drmData`; `metadata`; the
`u8`-count-prefixed segment-run-table sub-boxes; and the `u8`-count-prefixed
fragment-run-table sub-boxes.  Every step, the nested sub-box decodes
included, starts from exactly the cursor state the previous step left
behind (one single cursor, no independent buffer), and a failure anywhere
aborts the whole chain with the failing step's state. -/
def bootstrapDecodeSpecOrder : DecodeM F4VBootstrapInfoBox := fun it0 =>
  stepThen (F4VBox.decode it0) fun header it1 =>
  stepThen (RawDataIterator.readUI8 it1) fun version it2 =>
  stepThen (RawDataIterator.read 3 it2) fun flags it3 =>
  stepThen (RawDataIterator.readUI32 it3) fun boostrapInfoVersion it4 =>
  stepThen (RawDataIterator.read 1 it4) fun boh it5 =>
  stepThen (RawDataIterator.readUI32 it5) fun timescale it6 =>
  stepThen (RawDataIterator.readUI64 it6) fun currentMediaTime it7 =>
  stepThen (RawDataIterator.readUI64 it7) fun SmpteTimeCodeOffset it8 =>
  stepThen (RawDataIterator.readNullString it8) fun movieIdentifier it9 =>
  stepThen (RawDataIterator.readUI8 it9) fun serverEntryCount it10 =>
  stepThen (decodeTable RawDataIterator.readNullString serverEntryCount it10)
    fun serverEntryTable it11 =>
  stepThen (RawDataIterator.readUI8 it11) fun qualityEntryCount it12 =>
  stepThen (decodeTable RawDataIterator.readNullString qualityEntryCount it12)
    fun qualityEntryTable it13 =>
  stepThen (RawDataIterator.readNullString it13) fun drmData it14 =>
  stepThen (RawDataIterator.readNullString it14) fun metadata it15 =>
  stepThen (RawDataIterator.readUI8 it15) fun segmentRunTableCount it16 =>
  stepThen (decodeTable F4VSegmentRunTableBox.decode segmentRunTableCount it16)
    fun segmentRunTableEntries it17 =>
  stepThen (RawDataIterator.readUI8 it17) fun fragmentRunTableCount it18 =>
  stepThen (decodeTable F4VFragmentRunTableBox.decode fragmentRunTableCount it18)
    fun fragmentRunTableEntries it19 =>
  (Except.ok
    { toF4VBox := header,
      version := version,
      flags := flags,
      boostrapInfoVersion := boostrapInfoVersion,
      boh := boh,
      timescale := timescale,
      currentMediaTime := currentMediaTime,
      SmpteTimeCodeOffset := SmpteTimeCodeOffset,
      movieIdentifier := movieIdentifier,
      serverEntryCount := serverEntryCount,
      serverEntryTable := serverEntryTable,
      qualityEntryCount := qualityEntryCount,
      qualityEntryTable := qualityEntryTable,
      drmData := drmData,
      metadata := metadata,
      segmentRunTableCount := segmentRunTableCount,
      segmentRunTableEntries := segmentRunTableEntries,
      fragmentRunTableCount := fragmentRunTableCount,
      fragmentRunTableEntries := fragmentRunTableEntries },
   it19)

/-- C7: for every input buffer, the `F4VBootstrapInfoBox` decode reads its
fields in the strict sequential order — box header; the scalars `version`,
`flags`, `bootstrapInfoVersion`, reserved byte, `timescale`,
`currentMediaTime`, `smpteTimeCodeOffset`; `movieIdentifier`; the
`u8`-count-prefixed server entry strings; the `u8`-count-prefixed quality
entry strings; `drmData`; `metadata`; the `u8`-count-prefixed
segment-run-table sub-boxes; and the `u8`-count-prefixed fragment-run-table
sub-boxes — and every nested sub-box decode consumes the same single cursor,
continuing from its current position: the decoder is extensionally equal to
the explicit state-threaded chain `bootstrapDecodeSpecOrder`. -/
theorem c7_bootstrap_sequential_order :
    F4VBootstrapInfoBox.decode = bootstrapDecodeSpecOrder := by
  funext it0
  unfold F4VBootstrapInfoBox.decode bootstrapDecodeSpecOrder
  rw [bind_apply_stepThen]
  refine stepThen_congr _ _ _ (fun header it1 => ?_)
  rw [bind_apply_stepThen]
  refine stepThen_congr _ _ _ (fun version it2 => ?_)
  rw [bind_apply_stepThen]
  refine stepThen_congr _ _ _ (fun flags it3 => ?_)
  rw [bind_apply_stepThen]
  refine stepThen_congr _ _ _ (fun boostrapInfoVersion it4 => ?_)
  rw [bind_apply_stepThen]
  refine stepThen_congr _ _ _ (fun boh it5 => ?_)
  rw [bind_apply_stepThen]
  refine stepThen_congr _ _ _ (fun timescale it6 => ?_)
  rw [bind_apply_stepThen]
  refine stepThen_congr _ _ _ (fun currentMediaTime it7 => ?_)
  rw [bind_apply_stepThen]
  refine stepThen_congr _ _ _ (fun SmpteTimeCodeOffset it8 => ?_)
  rw [bind_apply_stepThen]
  refine stepThen_congr _ _ _ (fun movieIdentifier it9 => ?_)
  rw [bind_apply_stepThen]
  refine stepThen_congr _ _ _ (fun serverEntryCount it10 => ?_)
  rw [bind_apply_stepThen]
  refine stepThen_congr _ _ _ (fun serverEntryTable it11 => ?_)
  rw [bind_apply_stepThen]
  refine stepThen_congr _ _ _ (fun qualityEntryCount it12 => ?_)
  rw [bind_apply_stepThen]
  refine stepThen_congr _ _ _ (fun qualityEntryTable it13 => ?_)
  rw [bind_apply_stepThen]
  refine stepThen_congr _ _ _ (fun drmData it14 => ?_)
  rw [bind_apply_stepThen]
  refine stepThen_congr _ _ _ (fun metadata it15 => ?_)
  rw [bind_apply_stepThen]
  refine stepThen_congr _ _ _ (fun segmentRunTableCount it16 => ?_)
  rw [bind_apply_stepThen]
  refine stepThen_congr _ _ _ (fun segmentRunTableEntries it17 => ?_)
  rw [bind_apply_stepThen]
  refine stepThen_congr _ _ _ (fun fragmentRunTableCount it18 => ?_)
  rw [bind_apply_stepThen]
  refine stepThen_congr _ _ _ (fun fragmentRunTableEntries it19 => ?_)
  rfl

/-- C9: for every integer representable in N bytes (N ∈ {1, 2, 4, 8}),
writing it big-endian on N bytes and decoding those bytes with the
corresponding reader (`readUI8`/`readUI16`/`readUI32`/`readUI64`) returns
the value; each reader interprets its N consumed bytes in big-endian byte
order. -/
theorem c9_bigendian_roundtrip (v : Nat) :
    (v < 256 → RawDataIterator.readUI8 { data := beEncode 1 v, index := 0 }
        = (Except.ok v, { data := beEncode 1 v, index := 1 })) ∧
    (v < 256 ^ 2 → RawDataIterator.readUI16 { data := beEncode 2 v, index := 0 }
        = (Except.ok v, { data := beEncode 2 v, index := 2 })) ∧
    (v < 256 ^ 4 → RawDataIterator.readUI32 { data := beEncode 4 v, index := 0 }
        = (Except.ok v, { data := beEncode 4 v, index := 4 })) ∧
    (v < 256 ^ 8 → RawDataIterator.readUI64 { data := beEncode 8 v, index := 0 }
        = (Except.ok v, { data := beEncode 8 v, index := 8 })) := by
  refine ⟨fun h => ?_, fun h => ?_, fun h => ?_, fun h => ?_⟩
  · unfold RawDataIterator.readUI8
    exact readFixed_beEncode 1 v (by simpa using h)
  · unfold RawDataIterator.readUI16
    exact readFixed_beEncode 2 v h
  · unfold RawDataIterator.readUI32
    exact readFixed_beEncode 4 v h
  · unfold RawDataIterator.readUI64
    exact readFixed_beEncode 8 v h

/-- Witness for C9, at the maximal value of each width. -/
theorem c9_bigendian_roundtrip_witness :
    RawDataIterator.readUI8 { data := beEncode 1 255, index := 0 }
        = (Except.ok 255, { data := beEncode 1 255, index := 1 }) ∧
    RawDataIterator.readUI16 { data := beEncode 2 65535, index := 0 }
        = (Except.ok 65535, { data := beEncode 2 65535, index := 2 }) ∧
    RawDataIterator.readUI32 { data := beEncode 4 4294967295, index := 0 }
        = (Except.ok 4294967295, { data := beEncode 4 4294967295, index := 4 }) ∧
    RawDataIterator.readUI64 { data := beEncode 8 18446744073709551615, index := 0 }
        = (Except.ok 18446744073709551615,
           { data := beEncode 8 18446744073709551615, index := 8 }) :=
  ⟨(c9_bigendian_roundtrip 255).1 (by norm_num),
   (c9_bigendian_roundtrip 65535).2.1 (by norm_num),
   (c9_bigendian_roundtrip 4294967295).2.2.1 (by norm_num),
   (c9_bigendian_roundtrip 18446744073709551615).2.2.2 (by norm_num)⟩

/-- C1: whenever a fragment-run entry decodes successfully, a
`fragment_duration` of 0 means the decoder consumed exactly one additional
byte (17 in all: 16 for the three fixed fields plus 1 for
`discontinuity_indicator`, which is then present), and a nonzero
`fragment_duration` means zero additional bytes (16 in all) with the
indicator absent (`None` inside its tuple). -/
theorem c1_fragment_entry_conditional_byte (it : RawDataIterator)
    (e : FragmentRunEntry) (it' : RawDataIterator)
    (h : fragmentRunEntryStep it = (Except.ok e, it')) :
    (e.fragment_duration = 0 →
       it'.index = it.index + 17 ∧
         ∃ b, e.discontinuity_indicator = PyTuple1.mk (some b)) ∧
    (e.fragment_duration ≠ 0 →
       it'.index = it.index + 16 ∧
         e.discontinuity_indicator = PyTuple1.mk none) := by
  unfold fragmentRunEntryStep at h
  obtain ⟨v1, s1, h1, h⟩ := DecodeM.bind_ok h
  obtain ⟨v2, s2, h2, h⟩ := DecodeM.bind_ok h
  obtain ⟨v3, s3, h3, h⟩ := DecodeM.bind_ok h
  obtain ⟨disc, s4, hif, h⟩ := DecodeM.bind_ok h
  obtain ⟨hv, hs4⟩ := DecodeM.pure_ok h
  unfold RawDataIterator.readUI32 at h1 h3
  unfold RawDataIterator.readUI64 at h2
  obtain ⟨he1, -⟩ := readFixed_ok_inv _ _ _ _ h1
  obtain ⟨he2, -⟩ := readFixed_ok_inv _ _ _ _ h2
  obtain ⟨he3, -⟩ := readFixed_ok_inv _ _ _ _ h3
  subst he1
  subst he2
  subst he3
  subst hs4
  rw [← hv]
  by_cases hz : v3 = 0
  · rw [if_pos hz] at hif
    obtain ⟨b, s5, hb, h5⟩ := DecodeM.bind_ok hif
    obtain ⟨hbv, hs5⟩ := DecodeM.pure_ok h5
    unfold RawDataIterator.readUI8 at hb
    obtain ⟨he4, -⟩ := readFixed_ok_inv _ _ _ _ hb
    subst he4
    subst hs5
    dsimp only
    constructor
    · intro _
      refine ⟨by push_cast; ring, b, by rw [← hbv]⟩
    · intro hnz
      exact absurd hz hnz
  · rw [if_neg hz] at hif
    obtain ⟨hdv, hs5⟩ := DecodeM.pure_ok hif
    subst hs5
    dsimp only
    constructor
    · intro hzero
      exact absurd hzero hz
    · intro _
      refine ⟨by push_cast; ring, by rw [← hdv]⟩

/-- Witness for C1: one entry with zero duration (17 bytes consumed,
indicator byte 7) decoded at index 0 of a 19-byte buffer. -/
theorem c1_fragment_entry_conditional_byte_witness :
    (fragmentRunEntryStep
        { data := [0,0,0,1, 0,0,0,0,0,0,0,0, 0,0,0,0, 7, 9,9], index := 0 }).2.index
        = (0 : Int) + 17 ∧
      ∃ b, (PyTuple1.mk (some 7) : PyTuple1 (Option Nat)) = PyTuple1.mk (some b) := by
  have h := c1_fragment_entry_conditional_byte
    { data := [0,0,0,1, 0,0,0,0,0,0,0,0, 0,0,0,0, 7, 9,9], index := 0 }
    { first_fragment := 1, first_fragment_timestamp := 0, fragment_duration := 0,
      discontinuity_indicator := PyTuple1.mk (some 7) }
    (fragmentRunEntryStep
      { data := [0,0,0,1, 0,0,0,0,0,0,0,0, 0,0,0,0, 7, 9,9], index := 0 }).2
    (by decide)
  exact h.1 rfl

/-- C10: in every successfully decoded fragment-run entry, the
`discontinuity_indicator` field is a one-element tuple, not a bare value:
it equals `(b,)` where `b` is the byte consumed at offset 16 of the entry
when `fragment_duration = 0`, and equals `(None,)` — a present field
holding `None`, not an absent field — when `fragment_duration` is
nonzero. -/
theorem c10_discontinuity_is_one_tuple (it : RawDataIterator)
    (e : FragmentRunEntry) (it' : RawDataIterator)
    (h : fragmentRunEntryStep it = (Except.ok e, it')) :
    (e.fragment_duration = 0 →
       e.discontinuity_indicator =
         PyTuple1.mk (some (beBytesToNat
           (pySlice it.data (it.index + 16) (it.index + 17))))) ∧
    (e.fragment_duration ≠ 0 →
       e.discontinuity_indicator = PyTuple1.mk none) := by
  unfold fragmentRunEntryStep at h
  obtain ⟨v1, s1, h1, h⟩ := DecodeM.bind_ok h
  obtain ⟨v2, s2, h2, h⟩ := DecodeM.bind_ok h
  obtain ⟨v3, s3, h3, h⟩ := DecodeM.bind_ok h
  obtain ⟨disc, s4, hif, h⟩ := DecodeM.bind_ok h
  obtain ⟨hv, hs4⟩ := DecodeM.pure_ok h
  unfold RawDataIterator.readUI32 at h1 h3
  unfold RawDataIterator.readUI64 at h2
  obtain ⟨he1, -⟩ := readFixed_ok_inv _ _ _ _ h1
  obtain ⟨he2, -⟩ := readFixed_ok_inv _ _ _ _ h2
  obtain ⟨he3, -⟩ := readFixed_ok_inv _ _ _ _ h3
  subst he1
  subst he2
  subst he3
  rw [← hv]
  by_cases hz : v3 = 0
  · rw [if_pos hz] at hif
    obtain ⟨b, s5, hb, h5⟩ := DecodeM.bind_ok hif
    obtain ⟨hbv, -⟩ := DecodeM.pure_ok h5
    unfold RawDataIterator.readUI8 at hb
    have hbval := congrArg Prod.fst hb
    simp only at hbval
    obtain ⟨-, hbv2⟩ := (readFixed_fst_ok_iff 1 _ b).mp hbval
    dsimp only at hbv2 ⊢
    constructor
    · intro _
      rw [← hbv, hbv2]
      have harg1 : it.index + ((4:Nat):Int) + ((8:Nat):Int) + ((4:Nat):Int)
          = it.index + 16 := by push_cast; ring
      have harg2 : it.index + ((4:Nat):Int) + ((8:Nat):Int) + ((4:Nat):Int) + ((1:Nat):Int)
          = it.index + 17 := by push_cast; ring
      rw [harg2, harg1]
    · intro hnz
      exact absurd hz hnz
  · rw [if_neg hz] at hif
    obtain ⟨hdv, -⟩ := DecodeM.pure_ok hif
    dsimp only
    constructor
    · intro hzero
      exact absurd hzero hz
    · intro _
      rw [← hdv]

/-- Witness for C10: a nonzero-duration entry has indicator `(None,)`. -/
theorem c10_discontinuity_is_one_tuple_witness :
    ((2000 : Nat) ≠ 0 ∧
      (PyTuple1.mk (none : Option Nat)) = PyTuple1.mk none) := by
  have h := c10_discontinuity_is_one_tuple
    { data := [0,0,0,1, 0,0,0,0,0,0,0,0, 0,0,7,208, 7, 9,9], index := 0 }
    { first_fragment := 1, first_fragment_timestamp := 0, fragment_duration := 2000,
      discontinuity_indicator := PyTuple1.mk none }
    (fragmentRunEntryStep
      { data := [0,0,0,1, 0,0,0,0,0,0,0,0, 0,0,7,208, 7, 9,9], index := 0 }).2
    (by decide)
  exact ⟨by norm_num, h.2 (by norm_num)⟩

/-- C2 counterexample: `readUI32` on the empty buffer fails, yet the index
moves from 0 to 4 — a failed read does not leave the index at its value
before the read. -/
theorem c2_counterexample_failed_read_moves_index :
    (RawDataIterator.readUI32 { data := [], index := 0 }).1
        = Except.error DecodeError.outOfBounds ∧
    (RawDataIterator.readUI32 { data := [], index := 0 }).2.index = 4 := by
  constructor
  · decide
  · decide

/-- C2 amended: after a successful read of N bytes the index has advanced by
exactly N (fixed-width reads: by the width; byte reads: by the requested
size; null-string reads: by the string length plus the terminator).  But a
failed read does not leave the index unchanged: a failed fixed-width read of
width `n` has still advanced the index by `n` — the cursor moves before the
bytes are checked — and a failed null-string read from inside the buffer
leaves the index at the end of the buffer. -/
theorem c2_amended_index_advance (it : RawDataIterator) (n : Nat) :
    ((RawDataIterator.readFixed n it).2.index = it.index + n) ∧
    ((RawDataIterator.read (n : Int) it).2.index = it.index + n) ∧
    (∀ s it', RawDataIterator.readNullString it = (Except.ok s, it') →
       it'.index = it.index + s.length + 1) ∧
    (0 ≤ it.index → it.index ≤ (it.data.length : Int) →
       ∀ e it', RawDataIterator.readNullString it = (Except.error e, it') →
       it'.index = (it.data.length : Int)) := by
  refine ⟨by rw [readFixed_snd], rfl, ?_, ?_⟩
  · intro s it' h
    unfold RawDataIterator.readNullString at h
    rcases hscan : nullScan it.data (it.data.length + it.index.natAbs + 1)
        it.index [] with ⟨r, i'⟩
    rw [hscan] at h
    simp only at h
    have h1 := congrArg Prod.fst h
    have h2 := congrArg Prod.snd h
    simp only at h1 h2
    subst h1
    obtain ⟨t, ht, hi⟩ := nullScan_ok it.data _ _ _ _ _ hscan
    rw [← h2]
    simp only
    rw [hi, ht]
    simp
  · intro h0 h1 e it' h
    rw [readNullString_eq it h0 h1] at h
    by_cases hm : 0 ∈ it.data.drop it.index.toNat
    · rw [if_pos hm] at h
      simp at h
    · rw [if_neg hm] at h
      have h2 := congrArg Prod.snd h
      simp only at h2
      rw [← h2]

/-- Witness for C2 amended: a successful null-string read of `[5]` stops at
index 2; a failed null-string read on an unterminated buffer leaves the
index at the end. -/
theorem c2_amended_index_advance_witness :
    (RawDataIterator.readNullString { data := [5, 0], index := 0 }).2.index
        = (0 : Int) + ([5] : List Nat).length + 1 ∧
    (RawDataIterator.readNullString { data := [5, 6], index := 0 }).2.index
        = (([5, 6] : List Nat).length : Int) := by
  constructor
  · exact (c2_amended_index_advance { data := [5, 0], index := 0 } 0).2.2.1 [5]
      (RawDataIterator.readNullString { data := [5, 0], index := 0 }).2 (by decide)
  · exact (c2_amended_index_advance { data := [5, 6], index := 0 } 0).2.2.2
      (by norm_num) (by norm_num) DecodeError.outOfBounds
      (RawDataIterator.readNullString { data := [5, 6], index := 0 }).2 (by decide)

/-- C3 counterexample: `read 4` on a two-byte buffer does not fail with an
out-of-bounds error — it succeeds, returning the silently truncated
two-byte slice. -/
theorem c3_counterexample_silent_truncation :
    (RawDataIterator.read 4 { data := [1, 2], index := 0 }).1 = Except.ok [1, 2] := by
  decide

/-- C3 amended: a fixed-width integer read with fewer than `n` bytes
remaining fails with the out-of-bounds decode error and never decodes an
integer from fewer bytes (success implies the full `n`-byte slice was
present and the value is its big-endian interpretation); but the
byte-sequence `read n` never fails — with fewer than `n` bytes remaining it
silently returns the truncated remainder instead of an error. -/
theorem c3_amended_fixed_fails_bytes_truncate (it : RawDataIterator) (n : Nat) :
    (0 ≤ it.index → 0 < n → (it.data.length : Int) < it.index + n →
      (RawDataIterator.readFixed n it).1 = Except.error DecodeError.outOfBounds) ∧
    (∀ v, (RawDataIterator.readFixed n it).1 = Except.ok v →
      (pySlice it.data it.index (it.index + n)).length = n ∧
        v = beBytesToNat (pySlice it.data it.index (it.index + n))) ∧
    ((RawDataIterator.read (n : Int) it).1
        = Except.ok (pySlice it.data it.index (it.index + n))) :=
  ⟨fun h0 hn hlt => readFixed_error_of_short n it h0 hn hlt,
   fun v hv => (readFixed_fst_ok_iff n it v).mp hv, rfl⟩

/-- Witness for C3 amended: `readFixed 4` on a two-byte buffer fails with
the out-of-bounds error, and a successful `readFixed 2` there decodes the
full two-byte big-endian value. -/
theorem c3_amended_fixed_fails_bytes_truncate_witness :
    (RawDataIterator.readFixed 4 { data := [1, 2], index := 0 }).1
        = Except.error DecodeError.outOfBounds ∧
    ((pySlice [1, 2] 0 ((0 : Int) + (2 : Nat))).length = 2 ∧
      258 = beBytesToNat (pySlice [1, 2] 0 ((0 : Int) + (2 : Nat)))) := by
  constructor
  · exact (c3_amended_fixed_fails_bytes_truncate { data := [1, 2], index := 0 } 4).1
      (by norm_num) (by norm_num) (by norm_num)
  · exact (c3_amended_fixed_fails_bytes_truncate { data := [1, 2], index := 0 } 2).2.1
      258 (by decide)

/-- C4 counterexample: the fresh cursor on the empty buffer satisfies the
invariant `0 ≤ index ≤ length`, but `rewind 1` drives its index to −1 — the
invariant is not preserved by every operation. -/
theorem c4_counterexample_rewind_breaks_invariant :
    (RawDataIterator.mk [] 0).Wf ∧
    ¬ (RawDataIterator.rewind 1 (RawDataIterator.mk [] 0)).2.Wf := by
  constructor
  · exact ⟨by norm_num, by norm_num⟩
  · intro hwf
    have h1 := hwf.1
    have h2 : (RawDataIterator.rewind 1 (RawDataIterator.mk [] 0)).2.index = -1 := rfl
    rw [h2] at h1
    norm_num at h1

/-- C4 amended: the invariant `0 ≤ index ≤ length` holds for a fresh cursor
and is preserved by every *successful* fixed-width read, by `readNullString`
whether it succeeds or fails, by `remaining`, by `resetTo` to a position
inside the buffer, and by `read n` when `n` bytes actually remain.  It is
not preserved in general: `rewind` can make the index negative (the C4
counterexample) and failed fixed-width reads or over-long `read`s push the
index past the end. -/
theorem c4_amended_invariant_preservation :
    (∀ data : List Nat, (RawDataIterator.mk data 0).Wf) ∧
    (∀ (it : RawDataIterator) (n v : Nat) (it' : RawDataIterator), it.Wf →
       RawDataIterator.readFixed n it = (Except.ok v, it') → it'.Wf) ∧
    (∀ (it : RawDataIterator) (r : Except DecodeError (List Nat))
       (it' : RawDataIterator), it.Wf →
       RawDataIterator.readNullString it = (r, it') → it'.Wf) ∧
    (∀ (it : RawDataIterator) (r : Except DecodeError (List Nat))
       (it' : RawDataIterator), RawDataIterator.remaining it = (r, it') → it'.Wf) ∧
    (∀ (it : RawDataIterator) (i : Int), 0 ≤ i → i ≤ (it.data.length : Int) →
       ((RawDataIterator.resetTo i it).2).Wf) ∧
    (∀ (it : RawDataIterator) (n : Nat), it.Wf →
       it.index + n ≤ (it.data.length : Int) →
       ((RawDataIterator.read (n : Int) it).2).Wf) := by
  refine ⟨?_, ?_, ?_, ?_, ?_, ?_⟩
  · intro data
    exact ⟨by norm_num, by positivity⟩
  · intro it n v it' hwf h
    have h1 := hwf.1
    have h2 := hwf.2
    obtain ⟨he, hb⟩ := readFixed_ok_inv n it v it' h
    subst he
    rcases Nat.eq_zero_or_pos n with hn | hn
    · subst hn
      refine ⟨?_, ?_⟩ <;> dsimp only <;> push_cast <;> omega
    · have hbb := hb h1 hn
      refine ⟨?_, ?_⟩ <;> dsimp only <;> omega
  · intro it r it' hwf h
    have h1 := hwf.1
    have h2 := hwf.2
    rcases r with e | s
    · rw [readNullString_eq it h1 h2] at h
      by_cases hm : 0 ∈ it.data.drop it.index.toNat
      · rw [if_pos hm] at h
        simp at h
      · rw [if_neg hm] at h
        have hsnd := congrArg Prod.snd h
        simp only at hsnd
        rw [← hsnd]
        exact ⟨by positivity, by dsimp only; omega⟩
    · obtain ⟨hd, hadv, hle⟩ := readNullString_ok_bounds it s it' h1 h2 h
      exact ⟨by omega, by rw [← hd] at hle; exact hle⟩
  · intro it r it' h
    have hsnd := congrArg Prod.snd h
    have hr : (RawDataIterator.remaining it).2
        = { it with index := it.index + ((it.data.length : Int) - it.index) } := rfl
    rw [hr] at hsnd
    simp only at hsnd
    rw [← hsnd]
    refine ⟨?_, ?_⟩ <;> dsimp only <;> omega
  · intro it i h0 h1
    exact ⟨h0, h1⟩
  · intro it n hwf hfit
    have h1 := hwf.1
    have hr : (RawDataIterator.read (n : Int) it).2
        = { it with index := it.index + n } := rfl
    rw [hr]
    refine ⟨?_, ?_⟩ <;> dsimp only <;> omega

/-- Witness for C4 amended: preservation checked on a concrete two-byte
buffer for the fresh cursor, a null-string read, and an in-range
`resetTo`. -/
theorem c4_amended_invariant_preservation_witness :
    (RawDataIterator.mk [7, 0] 0).Wf ∧
    (RawDataIterator.readNullString (RawDataIterator.mk [7, 0] 0)).2.Wf ∧
    ((RawDataIterator.resetTo 1 (RawDataIterator.mk [7, 0] 0)).2).Wf := by
  have h := c4_amended_invariant_preservation
  refine ⟨h.1 [7, 0], ?_, ?_⟩
  · exact h.2.2.1 (RawDataIterator.mk [7, 0] 0)
      (RawDataIterator.readNullString (RawDataIterator.mk [7, 0] 0)).1
      (RawDataIterator.readNullString (RawDataIterator.mk [7, 0] 0)).2
      (h.1 [7, 0]) rfl
  · exact h.2.2.2.2.1 (RawDataIterator.mk [7, 0] 0) 1 (by norm_num) (by norm_num)

/-- In a list containing a `0`, the element right after the prefix of
nonzero bytes is the first `0`. -/
theorem get_first_zero (l : List Nat) (h : 0 ∈ l) :
    l.get? (l.takeWhile (fun b => b != 0)).length = some 0 := by
  induction l with
  | nil => simp at h
  | cons c rest ih =>
    by_cases hc : c = 0
    · subst hc
      rw [List.takeWhile_cons_of_neg (by simp)]
      simp
    · rw [@List.takeWhile_cons_of_pos Nat (fun b => b != 0) c rest (by simpa using hc)]
      have h' : 0 ∈ rest := by
        rcases List.mem_cons.mp h with h'' | h''
        · exact absurd h''.symm hc
        · exact h''
      simpa using ih h'

/-- C5: from a cursor position inside the buffer, `readNullString` consumes
bytes up to and including the first `0x00` at or after the position and
returns exactly the bytes strictly before that terminator (all nonzero,
with the byte at the stop position being the first `0x00`); if no `0x00`
occurs between the position and the end of the buffer, it fails with the
out-of-bounds decode error. -/
theorem c5_null_terminated_string (it : RawDataIterator)
    (h0 : 0 ≤ it.index) (h1 : it.index ≤ (it.data.length : Int)) :
    (0 ∈ it.data.drop it.index.toNat →
      RawDataIterator.readNullString it =
        (Except.ok ((it.data.drop it.index.toNat).takeWhile (fun b => b != 0)),
         { it with index := it.index
            + ((it.data.drop it.index.toNat).takeWhile (fun b => b != 0)).length
            + 1 }) ∧
      (∀ b ∈ (it.data.drop it.index.toNat).takeWhile (fun b => b != 0), b ≠ 0) ∧
      (it.data.drop it.index.toNat).get?
          ((it.data.drop it.index.toNat).takeWhile (fun b => b != 0)).length
        = some 0) ∧
    (0 ∉ it.data.drop it.index.toNat →
      RawDataIterator.readNullString it =
        (Except.error DecodeError.outOfBounds,
         { it with index := (it.data.length : Int) })) := by
  constructor
  · intro hm
    refine ⟨?_, ?_, get_first_zero _ hm⟩
    · rw [readNullString_eq it h0 h1, if_pos hm]
    · intro b hb
      have := List.mem_takeWhile_imp hb
      simpa using this
  · intro hm
    rw [readNullString_eq it h0 h1, if_neg hm]

/-- Witness for C5 on the buffer `[65, 66, 0, 9]`: the read returns
`[65, 66]` and stops at index 3; on `[65, 66]` (no terminator) it fails. -/
theorem c5_null_terminated_string_witness :
    RawDataIterator.readNullString { data := [65, 66, 0, 9], index := 0 }
        = (Except.ok [65, 66], { data := [65, 66, 0, 9], index := 3 }) ∧
    RawDataIterator.readNullString { data := [65, 66], index := 0 }
        = (Except.error DecodeError.outOfBounds,
           { data := [65, 66], index := 2 }) := by
  constructor
  · have h := (c5_null_terminated_string { data := [65, 66, 0, 9], index := 0 }
      (by norm_num) (by norm_num)).1 (by decide)
    have h2 := h.1
    simpa using h2
  · have h := (c5_null_terminated_string { data := [65, 66], index := 0 }
      (by norm_num) (by norm_num)).2 (by decide)
    simpa using h

/-- C6 counterexample: a buffer whose box header carries the 64-bit
extended-size marker (`size` field = 1) decodes without any error — the
header is read as `size = 1` with its type tag and the cursor moves on, so
no `UnsupportedExtendedSize` failure occurs. -/
theorem c6_counterexample_extended_size_accepted :
    F4VBox.decode { data := [0, 0, 0, 1, 97, 98, 99, 100], index := 0 }
      = (Except.ok { size := 1, type := [97, 98, 99, 100] },
         { data := [0, 0, 0, 1, 97, 98, 99, 100], index := 8 }) := by
  decide

/-- C6 amended: the decoder performs no extended-size check at all — the
model has no `UnsupportedExtendedSize` error, and whenever eight bytes
remain the box header decodes successfully whatever the value of its
`size` field (the extended-size marker value 1 included), the parse simply
continuing after the eight header bytes. -/
theorem c6_amended_no_extended_size_check (it : RawDataIterator)
    (h0 : 0 ≤ it.index) (h8 : it.index + 8 ≤ (it.data.length : Int)) :
    F4VBox.decode it =
      (Except.ok
        { size := beBytesToNat (pySlice it.data it.index (it.index + 4)),
          type := pySlice it.data (it.index + 4) (it.index + 8) },
       { it with index := it.index + 8 }) := by
  unfold F4VBox.decode
  rw [bind_apply_stepThen]
  unfold RawDataIterator.readUI32
  rw [readFixed_ok_of_fits 4 it h0 (by push_cast; omega)]
  dsimp only [stepThen]
  rw [bind_apply_stepThen, read_eq]
  dsimp only [stepThen]
  rw [DecodeM.pure_apply]
  have e1 : it.index + ((4 : Nat) : Int) = it.index + 4 := by push_cast; ring
  have e2 : it.index + ((4 : Nat) : Int) + 4 = it.index + 8 := by push_cast; ring
  rw [e2, e1]

/-- Witness for C6 amended, on the extended-size-marker buffer itself. -/
theorem c6_amended_no_extended_size_check_witness :
    F4VBox.decode { data := [0, 0, 0, 1, 97, 98, 99, 100], index := 0 }
      = (Except.ok
          { size := beBytesToNat (pySlice [0, 0, 0, 1, 97, 98, 99, 100] 0 (0 + 4)),
            type := pySlice [0, 0, 0, 1, 97, 98, 99, 100] (0 + 4) (0 + 8) },
         { data := [0, 0, 0, 1, 97, 98, 99, 100], index := (0 : Int) + 8 }) :=
  c6_amended_no_extended_size_check
    { data := [0, 0, 0, 1, 97, 98, 99, 100], index := 0 }
    (by norm_num) (by norm_num)

/-- C8: count-prefixed table decodes.  A count field that decodes to 0
yields the empty table, consuming only the count field's bytes; a table
decode that succeeds always returns exactly the declared number of entries
(never a shorter sequence); and a declared count exceeding what the
remaining buffer can hold — per-entry minimum sizes: 1 byte per
null-terminated string, 8 bytes per segment-run entry, 16 bytes per
fragment-run entry — makes the table decode fail with the out-of-bounds
decode error. -/
theorem c8_count_prefixed_tables :
    (∀ (α : Type) (step : DecodeM α) (w : Nat) (it it' : RawDataIterator),
       RawDataIterator.readFixed w it = (Except.ok 0, it') →
       (RawDataIterator.readFixed w >>= fun c => decodeTable step c) it
           = (Except.ok ([] : List α), it') ∧
         it'.index = it.index + w) ∧
    (∀ (α : Type) (step : DecodeM α) (n : Nat) (it it' : RawDataIterator)
       (l : List α),
       decodeTable step n it = (Except.ok l, it') → l.length = n) ∧
    (∀ (n : Nat) (it : RawDataIterator), it.Wf →
       (it.data.length : Int) < it.index + n →
       (decodeTable RawDataIterator.readNullString n it).1
         = Except.error DecodeError.outOfBounds) ∧
    (∀ (n : Nat) (it : RawDataIterator), it.Wf →
       (it.data.length : Int) < it.index + 8 * n →
       (decodeTable segmentRunEntryStep n it).1
         = Except.error DecodeError.outOfBounds) ∧
    (∀ (n : Nat) (it : RawDataIterator), it.Wf →
       (it.data.length : Int) < it.index + 16 * n →
       (decodeTable fragmentRunEntryStep n it).1
         = Except.error DecodeError.outOfBounds) := by
  refine ⟨?_, ?_, ?_, ?_, ?_⟩
  · intro α step w it it' h
    obtain ⟨he, -⟩ := readFixed_ok_inv w it 0 it' h
    constructor
    · rw [bind_apply_stepThen, h]
      dsimp only [stepThen]
      exact decodeTable_zero step it'
    · rw [he]
  · intro α step n it it' l h
    exact decodeTable_ok_length step n it l it' h
  · intro n it hwf hb
    refine decodeTable_error RawDataIterator.readNullString 1 ?_ n it hwf.1 hwf.2 ?_
    · intro s a s' hs0 hs1 hstep
      obtain ⟨hd, hadv, hle⟩ := readNullString_ok_bounds s a s' hs0 hs1 hstep
      exact ⟨hd, by push_cast; omega, hle⟩
    · push_cast
      omega
  · intro n it hwf hb
    refine decodeTable_error segmentRunEntryStep 8 ?_ n it hwf.1 hwf.2 ?_
    · intro s a s' hs0 hs1 hstep
      obtain ⟨hd, hadv, hle⟩ := segmentRunEntryStep_bounds s a s' hs0 hs1 hstep
      exact ⟨hd, by push_cast; omega, hle⟩
    · push_cast at hb ⊢
      omega
  · intro n it hwf hb
    refine decodeTable_error fragmentRunEntryStep 16 ?_ n it hwf.1 hwf.2 ?_
    · intro s a s' hs0 hs1 hstep
      obtain ⟨hd, hadv, hle⟩ := fragmentRunEntryStep_bounds s a s' hs0 hs1 hstep
      exact ⟨hd, by push_cast; omega, hle⟩
    · push_cast at hb ⊢
      omega

/-- Witness for C8: a zero count consuming only its own byte, a successful
one-string table of declared length, and three concrete insufficient-count
failures. -/
theorem c8_count_prefixed_tables_witness :
    ((RawDataIterator.readFixed 1 >>=
        fun c => decodeTable RawDataIterator.readNullString c)
          { data := [0, 9], index := 0 }
        = (Except.ok ([] : List (List Nat)), { data := [0, 9], index := 1 }) ∧
      ({ data := [0, 9], index := (1 : Int) } : RawDataIterator).index
        = (0 : Int) + (1 : Nat)) ∧
    (([[5]] : List (List Nat)).length = 1) ∧
    ((decodeTable RawDataIterator.readNullString 3 { data := [5, 0], index := 0 }).1
        = Except.error DecodeError.outOfBounds) ∧
    ((decodeTable segmentRunEntryStep 1 { data := [1, 2, 3, 4], index := 0 }).1
        = Except.error DecodeError.outOfBounds) ∧
    ((decodeTable fragmentRunEntryStep 1 { data := [], index := 0 }).1
        = Except.error DecodeError.outOfBounds) := by
  have h := c8_count_prefixed_tables
  refine ⟨?_, ?_, ?_, ?_, ?_⟩
  · exact h.1 (List Nat) RawDataIterator.readNullString 1
      { data := [0, 9], index := 0 } { data := [0, 9], index := 1 } (by decide)
  · exact h.2.1 (List Nat) RawDataIterator.readNullString 1
      { data := [5, 0], index := 0 } { data := [5, 0], index := 2 } [[5]] (by decide)
  · exact h.2.2.1 3 { data := [5, 0], index := 0 }
      ⟨by norm_num, by norm_num⟩ (by norm_num)
  · exact h.2.2.2.1 1 { data := [1, 2, 3, 4], index := 0 }
      ⟨by norm_num, by norm_num⟩ (by norm_num)
  · exact h.2.2.2.2 1 { data := [], index := 0 }
      ⟨by norm_num, by norm_num⟩ (by norm_num)
